import Mathlib

/-!
Verification of the n-puzzle solver subsystem (Board, solvability checker,
Manhattan heuristics, neighbor generation, and the three search engines
A*, BFS, IDA*), shallowly embedded from the Python sources in
`src/cursor-ai/src/core/board.py`, `src/cursor-ai/src/solvers/{astar,bfs,idastar}.py`
and `src/cursor-ai/src/models/algorithms/{astar,bfs,ida}.py`.

Boards are `List (List Nat)` mirroring the 2-D numpy arrays; machine ints are
modelled by `Nat`/`Int`; dictionaries by functions to `Option`; Python sets by
lists with membership guards; unbounded loops take explicit fuel, with result
`none` meaning "fuel exhausted" (never produced by the modelled program's own
control flow).
-/

namespace NPuzzle

/-- A board configuration: rows of cells, row-major, 0 = blank. -/
abbrev Grid := List (List Nat)

/-- Read cell `(i, j)` of a grid (out-of-range reads default to 0; the
sources only index in bounds). -/
def gget (g : Grid) (i j : Nat) : Nat := (g.getD i []).getD j 0

/-- Write cell `(i, j)` of a grid (no-op out of range, as `List.set`). -/
def gset (g : Grid) (i j v : Nat) : Grid := g.set i ((g.getD i []).set j v)

/-- `np.concatenate([np.arange(1, size*size), [0]])`: the flat goal layout
`[1, 2, ..., n²-1, 0]`. -/
def targetFlat (n : Nat) : List Nat := (List.range (n * n - 1)).map (· + 1) ++ [0]

/-- The canonical goal configuration
`np.concatenate([np.arange(1, size*size), [0]]).reshape((size, size))`,
built identically in `board.py` and in all six solver modules: the flat goal
layout cut into `n` consecutive rows of `n` cells (numpy's `reshape`). -/
def target (n : Nat) : Grid :=
  (List.range n).map (fun i => ((targetFlat n).drop (i * n)).take n)

/-- Inversion counting as in `Board.is_solvable`: for each element, count the
later elements that are smaller, and sum. -/
def inversions : List Nat → Nat
  | [] => 0
  | x :: xs => xs.countP (fun y => decide (y < x)) + inversions xs

/-- `core/board.py` `Board`: size, state grid, blank position, move counter,
and the history list of `(state, empty_pos, moves)` snapshots. -/
structure Board where
  size : Nat
  state : Grid
  empty_pos : Nat × Nat
  moves : Nat
  history : List (Grid × (Nat × Nat) × Nat)
deriving Repr, DecidableEq

/-- `Board.__init__(size)`. -/
def Board.init (size : Nat) : Board :=
  let st := target size
  { size := size, state := st, empty_pos := (size - 1, size - 1), moves := 0,
    history := [(st, (size - 1, size - 1), 0)] }

/-- Construct a board around a given state grid, the way the solvers receive
one (`size`, `state` and `empty_pos` attributes are read directly). -/
def Board.ofState (n : Nat) (g : Grid) (ep : Nat × Nat) : Board :=
  { size := n, state := g, empty_pos := ep, moves := 0, history := [(g, ep, 0)] }

/-- `Board.is_valid_move(row, col)`: the addressed position must be inside
the board and orthogonally adjacent (Manhattan distance 1) to the blank.
Row and column are Python ints and may be negative. -/
def Board.is_valid_move (b : Board) (row col : Int) : Bool :=
  if ¬ (0 ≤ row ∧ row < (b.size : Int) ∧ 0 ≤ col ∧ col < (b.size : Int)) then false
  else ((row - (b.empty_pos.1 : Int)).natAbs + (col - (b.empty_pos.2 : Int)).natAbs) == 1

/-- `Board.move(row, col)`: if the move is valid, swap the addressed cell with
the blank, update the blank position and move counter, append a history
snapshot and return True; otherwise leave the board as is and return False. -/
def Board.move (b : Board) (row col : Int) : Board × Bool :=
  if ¬ b.is_valid_move row col then (b, false)
  else
    let r := row.toNat
    let c := col.toNat
    let er := b.empty_pos.1
    let ec := b.empty_pos.2
    let temp := gget b.state er ec
    let st1 := gset b.state er ec (gget b.state r c)
    let st2 := gset st1 r c temp
    let b2 : Board :=
      { b with
        state := st2
        empty_pos := (r, c)
        moves := b.moves + 1
        history := b.history ++ [(st2, (r, c), b.moves + 1)] }
    (b2, true)

/-- The row-major scan of nonzero entries performed twice inside
`Board.is_solvable` (`for i in range(size): for j in range(size): if g[i,j] != 0:
append`). -/
def nonzeroScan (g : Grid) (size : Nat) : List Nat :=
  (List.range size).flatMap (fun i =>
    (List.range size).filterMap (fun j =>
      let v := gget g i j
      if v = 0 then none else some v))

/-- The blank-row scan of `Board.is_solvable`: sweep all `(i, j)` in row-major
order and remember the row of the last cell equal to 0 (`None` if absent). -/
def scanBlankRow (g : Grid) (size : Nat) : Option Nat :=
  (List.range size).foldl (fun acc i =>
    (List.range size).foldl (fun acc2 j =>
      if gget g i j = 0 then some i else acc2) acc) none

/-- `Board.is_solvable` from `core/board.py`: inversion counts of the current
and target states; odd sizes compare inversion parities, even sizes compare
`inversions + blank_row` parities (rows indexed from the top, 0-based). -/
def Board.is_solvable (b : Board) : Bool :=
  let current := b.state
  let size := current.length
  let tgt := target size
  let curInv := inversions (nonzeroScan current size)
  let tgtInv := inversions (nonzeroScan tgt size)
  if size % 2 = 1 then
    curInv % 2 == tgtInv % 2
  else
    match scanBlankRow current size, scanBlankRow tgt size with
    | some cr, some tr => (curInv + cr) % 2 == (tgtInv + tr) % 2
    | _, _ => false

/-- A structurally valid board grid of size `n`: `n` rows of `n` cells whose
cells are a permutation of `0 .. n²-1`. -/
def validGrid (n : Nat) (g : Grid) : Prop :=
  g.length = n ∧ (∀ r ∈ g, r.length = n) ∧ List.Perm g.flatten (List.range (n * n))

instance (n : Nat) (g : Grid) : Decidable (validGrid n g) := by
  unfold validGrid
  exact inferInstance

/-- Modelled from the spec: "the number of inversions in the flattened tile
sequence with the blank excluded". -/
def specInversions (g : Grid) : Nat := inversions (g.flatten.filter (fun v => !(v == 0)))

/-- Modelled from the spec: "blank_row_from_bottom counts rows starting at 1
from the bottom edge" (the bottom row is 1, the top row is `n`). -/
def blankRowFromBottom (n : Nat) (g : Grid) : Nat :=
  n - g.findIdx (fun row => row.contains 0)

/-- Modelled from the spec (claim C3's wording): odd `n` solvable iff
inversions even; even `n` solvable iff `(inversions + blank_row_from_bottom)`
is even. -/
def specSolvableC3 (n : Nat) (g : Grid) : Prop :=
  if n % 2 = 1 then specInversions g % 2 = 0
  else (specInversions g + blankRowFromBottom n g) % 2 = 0

instance (n : Nat) (g : Grid) : Decidable (specSolvableC3 n g) := by
  unfold specSolvableC3
  exact inferInstance

/-- All `(i, j)` cell coordinates of an `n × n` board in row-major order. -/
def cells (n : Nat) : List (Nat × Nat) :=
  (List.range n).flatMap (fun i => (List.range n).map (fun j => (i, j)))

/-- The fixed direction order used by every neighbor generator in the sources:
`[(0, 1), (1, 0), (0, -1), (-1, 0)]` — right, down, left, up. -/
def dirs : List (Int × Int) := [(0, 1), (1, 0), (0, -1), (-1, 0)]

/-- Successor construction used by all generators:
`new_board[row][col] = new_board[nr][nc]; new_board[nr][nc] = 0` on a copy —
the blank at `(row, col)` swaps with the tile at `(nr, nc)`. -/
def swapBlank (g : Grid) (row col nr nc : Nat) : Grid :=
  gset (gset g row col (gget g nr nc)) nr nc 0

/-- `PuzzleState` of `solvers/astar.py`: board, blank position, path cost `g`,
heuristic `h`, and the parent link with the move that produced this state
(`root` corresponds to `parent=None`). -/
inductive PState : Type where
  | root (board : Grid) (empty_pos : Nat × Nat) (g : Nat) (h : Nat)
  | child (board : Grid) (empty_pos : Nat × Nat) (g : Nat) (h : Nat)
      (move : Nat × Nat) (parent : PState)
deriving Repr, DecidableEq

def PState.board : PState → Grid
  | .root b _ _ _ => b
  | .child b _ _ _ _ _ => b

def PState.empty_pos : PState → Nat × Nat
  | .root _ e _ _ => e
  | .child _ e _ _ _ _ => e

def PState.gval : PState → Nat
  | .root _ _ g _ => g
  | .child _ _ g _ _ _ => g

def PState.hval : PState → Nat
  | .root _ _ _ h => h
  | .child _ _ _ h _ _ => h

/-- The Python mutation `state.h = v` (producing the updated object). -/
def PState.setH : PState → Nat → PState
  | .root b e g _, v => .root b e g v
  | .child b e g _ m p, v => .child b e g v m p

/-- `get_neighbors` from `solvers/astar.py`: for each direction in `dirs`
whose target cell is in bounds, emit the state obtained by swapping the blank
with that cell (`g+1`, parent = current state, move = new blank position,
`h` initialised to 0). -/
def get_neighbors (state : PState) (size : Nat) : List PState :=
  let row := state.empty_pos.1
  let col := state.empty_pos.2
  dirs.foldl (fun acc d =>
    let nr : Int := (row : Int) + d.1
    let nc : Int := (col : Int) + d.2
    if 0 ≤ nr ∧ nr < (size : Int) ∧ 0 ≤ nc ∧ nc < (size : Int) then
      acc ++ [PState.child (swapBlank state.board row col nr.toNat nc.toNat)
        (nr.toNat, nc.toNat) (state.gval + 1) 0 (nr.toNat, nc.toNat) state]
    else acc) []

/-- `np.argwhere(state == 0)[0]`: the first zero cell in row-major order
(none when the grid has no zero, where numpy indexing would fail). -/
def argwhereZero (g : Grid) : Option (Nat × Nat) :=
  match g.findIdx? (fun row => row.contains 0) with
  | none => none
  | some i => some (i, (g.getD i []).findIdx (fun v => v == 0))

/-- `_get_neighbors` shared by the three `models/algorithms` solvers: locate
the blank by scanning, then the same four-direction loop producing
`(successor_board, move)` pairs. -/
def get_neighbors_m (g : Grid) (size : Nat) : Option (List (Grid × (Nat × Nat))) :=
  (argwhereZero g).map (fun ep =>
    dirs.foldl (fun acc d =>
      let nr : Int := (ep.1 : Int) + d.1
      let nc : Int := (ep.2 : Int) + d.2
      if 0 ≤ nr ∧ nr < (size : Int) ∧ 0 ≤ nc ∧ nc < (size : Int) then
        acc ++ [(swapBlank g ep.1 ep.2 nr.toNat nc.toNat, (nr.toNat, nc.toNat))]
      else acc) [])

/-- Python `abs(i - ti)` on ints, as a natural number. -/
def adist (a b : Nat) : Nat := ((a : Int) - (b : Int)).natAbs

/-- The `target_positions` lookup table of `solvers/astar.py
manhattan_distance`: scan the target grid in row-major order, storing (later
writes win) the position of each nonzero value. -/
def tposDict (tgt : Grid) (size : Nat) : Nat → Option (Nat × Nat) :=
  (List.range size).foldl (fun d i =>
    (List.range size).foldl (fun d2 j =>
      let v := gget tgt i j
      if v ≠ 0 then (fun k => if k = v then some (i, j) else d2 k) else d2) d)
    (fun _ => none)

/-- `manhattan_distance` of `solvers/astar.py` (lookup-table version):
for each nonzero cell of `state`, add the L1 distance to the looked-up target
position. `none` models the `KeyError` raised when a nonzero value of `state`
is missing from the table. -/
def manhattan_astar (state tgt : Grid) : Option Nat :=
  let size := state.length
  let d := tposDict tgt size
  (List.range size).foldl (fun acc i =>
    (List.range size).foldl (fun acc2 j =>
      let v := gget state i j
      if v ≠ 0 then
        match acc2, d v with
        | some s, some tp => some (s + (adist i tp.1 + adist j tp.2))
        | _, _ => none
      else acc2) acc) (some 0)

/-- `manhattan_distance` of `solvers/idastar.py` (nested-scan version):
for each nonzero cell, scan every target row; in each row the first matching
column (the inner `break`) contributes its L1 distance. -/
def manhattan_ida (state tgt : Grid) : Nat :=
  let size := state.length
  (List.range size).foldl (fun acc i =>
    (List.range size).foldl (fun acc2 j =>
      let v := gget state i j
      if v ≠ 0 then
        (List.range size).foldl (fun acc3 ti =>
          match (List.range size).find? (fun tj => gget tgt ti tj == v) with
          | some tj => acc3 + (adist i ti + adist j tj)
          | none => acc3) acc2
      else acc2) acc) 0

/-- Modelled from the spec: the goal position of tile `v` on an `n × n`
board — row `(v-1)/n`, column `(v-1)%n`. -/
def goalPos (n v : Nat) : Nat × Nat := ((v - 1) / n, (v - 1) % n)

/-- Modelled from the spec: "for each non-blank tile, the L1 distance between
its current and goal position, summed". -/
def specManhattan (n : Nat) (g : Grid) : Nat :=
  ((cells n).map (fun p =>
    if gget g p.1 p.2 = 0 then 0
    else adist p.1 (goalPos n (gget g p.1 p.2)).1
      + adist p.2 (goalPos n (gget g p.1 p.2)).2)).sum

/-- CPython `heapq._siftdown(heap, startpos, pos)` with `newitem = heap[pos]`
read on entry: walk up from `pos`, moving parents down while `newitem` is
smaller, then place `newitem`. -/
def siftdown {α : Type} (lt : α → α → Bool) (newitem : α) (startpos : Nat)
    (pos : Nat) (heap : List α) : List α :=
  if startpos < pos then
    let parentpos := (pos - 1) / 2
    let parent := heap.getD parentpos newitem
    if lt newitem parent then
      siftdown lt newitem startpos parentpos (heap.set pos parent)
    else heap.set pos newitem
  else heap.set pos newitem
termination_by pos
decreasing_by
  have hd := Nat.div_le_self (pos - 1) 2
  omega

/-- The loop of CPython `heapq._siftup(heap, pos)` with `newitem = heap[pos]`
read on entry: walk down to a leaf along the smaller child, then place
`newitem` and sift it down. -/
def siftupGo {α : Type} (lt : α → α → Bool) (newitem : α) (startpos : Nat)
    (pos : Nat) (heap : List α) : List α :=
  let endpos := heap.length
  let childpos := 2 * pos + 1
  if h : childpos < endpos then
    let rightpos := childpos + 1
    let cp2 := if rightpos < endpos ∧
        ¬ lt (heap.getD childpos newitem) (heap.getD rightpos newitem) then rightpos
      else childpos
    siftupGo lt newitem startpos cp2 (heap.set pos (heap.getD cp2 newitem))
  else
    siftdown lt newitem startpos pos (heap.set pos newitem)
termination_by heap.length - pos
decreasing_by
  simp only [List.length_set]
  split
  · omega
  · omega

/-- CPython `heapq.heappush`: append, then sift the new last element up to
the root region. -/
def heappush {α : Type} (lt : α → α → Bool) (heap : List α) (item : α) : List α :=
  siftdown lt item 0 heap.length (heap ++ [item])

/-- CPython `heapq.heappop`: pop the last element; if the heap is still
nonempty, return the old root after moving the last element to the root and
sifting it up. `none` models popping an empty heap (guarded in the solvers). -/
def heappop {α : Type} (lt : α → α → Bool) (heap : List α) : Option (α × List α) :=
  match heap.getLast? with
  | none => none
  | some lastelt =>
    let rest := heap.dropLast
    if rest.isEmpty then some (lastelt, [])
    else
      let returnitem := rest.headD lastelt
      some (returnitem, siftupGo lt lastelt 0 0 (rest.set 0 lastelt))

/-- `PuzzleState.__lt__`: compare by `g + h` only. -/
def pstateLt (a b : PState) : Bool := decide (a.gval + a.hval < b.gval + b.hval)

/-- `build_solution` of `solvers/astar.py`: collect moves walking the parent
chain up to the root, earliest move first (the Python `[::-1]` reversal). -/
def build_solution : PState → List (Nat × Nat)
  | .root _ _ _ _ => []
  | .child _ _ _ _ mv p => build_solution p ++ [mv]

/-- The `while open_list` loop of `solvers/astar.py solve_puzzle`: pop the
lowest-f state; return the reconstructed path on goal; skip closed states;
otherwise close the state and push each non-closed neighbor with its computed
heuristic. Result: outer `none` = fuel exhausted; `some none` = the loop
reported no solution (or a `KeyError` from the heuristic propagated, which the
enclosing `try` turns into `None`); `some (some ms)` = solution `ms`. -/
def astarLoop (tgt : Grid) (size : Nat) :
    Nat → List PState → List Grid → Option (Option (List (Nat × Nat)))
  | 0, _, _ => none
  | fuel + 1, open_list, closed =>
    match heappop pstateLt open_list with
    | none => some none
    | some (current, rest) =>
      if current.board == tgt then some (some (build_solution current))
      else if closed.contains current.board then astarLoop tgt size fuel rest closed
      else
        let closed2 := closed ++ [current.board]
        let ns := get_neighbors current size
        let opn2 := ns.foldl (fun acc nb =>
          match acc with
          | none => none
          | some hp =>
            if closed2.contains nb.board then some hp
            else match manhattan_astar nb.board tgt with
              | none => none
              | some hv => some (heappush pstateLt hp (nb.setH hv))) (some rest)
        match opn2 with
        | none => some none
        | some o2 => astarLoop tgt size fuel o2 closed2

/-- `solve_puzzle` of `solvers/astar.py`. The returned pair threads the input
`Board` object through the call (its attributes are only read, never
assigned); the second component is the fuelled search result. -/
def astar_solve (b : Board) (fuel : Nat) : Board × Option (Option (List (Nat × Nat))) :=
  if ¬ b.is_solvable then (b, some none)
  else
    let size := b.size
    let tgt := target size
    match manhattan_astar b.state tgt with
    | none => (b, some none)
    | some h0 =>
      let initial := PState.root b.state b.empty_pos 0 h0
      if b.state == tgt then (b, some (some []))
      else (b, astarLoop tgt size fuel (heappush pstateLt [] initial) [])

/-- Predecessor map of `solvers/bfs.py`: state, mapped (`str(state)` keys are
modelled by the states themselves) to `None` for the start or
`(prev_state, prev_pos, move)`. Insert-only association list. -/
abbrev BfsVisited := List (Grid × Option (Grid × (Nat × Nat) × (Nat × Nat)))

/-- Path reconstruction of `solvers/bfs.py`: follow predecessor links from the
goal state back to the start, collecting moves, and reverse. Fuel bounds the
chain length (`none` = fuel exhausted, impossible for chains the loop built). -/
def bfsBacktrack (visited : BfsVisited) :
    Nat → Grid → List (Nat × Nat) → Option (List (Nat × Nat))
  | 0, _, _ => none
  | fuel + 1, cur, pathAcc =>
    match (visited.find? (fun e => e.1 == cur)).map (fun e => e.2) with
    | none => none
    | some none => some pathAcc.reverse
    | some (some (prev, _, mv)) => bfsBacktrack visited fuel prev (pathAcc ++ [mv])

/-- The `while queue` loop of `solvers/bfs.py solve_puzzle`: dequeue, return
the reconstructed path on goal, else enqueue each in-bounds successor not yet
in `visited`, recording its predecessor and move. -/
def bfsLoop (tgt : Grid) (size : Nat) :
    Nat → List (Grid × (Nat × Nat)) → BfsVisited → Option (Option (List (Nat × Nat)))
  | 0, _, _ => none
  | fuel + 1, queue, visited =>
    match queue with
    | [] => some none
    | (state, pos) :: qrest =>
      if state == tgt then
        (bfsBacktrack visited (visited.length + 1) state []).map some
      else
        let step := dirs.foldl (fun acc d =>
          let nr : Int := (pos.1 : Int) + d.1
          let nc : Int := (pos.2 : Int) + d.2
          if 0 ≤ nr ∧ nr < (size : Int) ∧ 0 ≤ nc ∧ nc < (size : Int) then
            let new_state := swapBlank state pos.1 pos.2 nr.toNat nc.toNat
            if ((acc.2).find? (fun e => e.1 == new_state)).isNone then
              (acc.1 ++ [(new_state, (nr.toNat, nc.toNat))],
               acc.2 ++ [(new_state, some (state, pos, (nr.toNat, nc.toNat)))])
            else acc
          else acc) (qrest, visited)
        bfsLoop tgt size fuel step.1 step.2

/-- `solve_puzzle` of `solvers/bfs.py` (board threaded as in `astar_solve`). -/
def bfs_solve (b : Board) (fuel : Nat) : Board × Option (Option (List (Nat × Nat))) :=
  if ¬ b.is_solvable then (b, some none)
  else
    let size := b.size
    let tgt := target size
    (b, bfsLoop tgt size fuel [(b.state, b.empty_pos)] [(b.state, none)])

/-- `min` against the running `min_f` where `none` models `float('inf')`. -/
def ominMin : Option Nat → Option Nat → Option Nat
  | none, b => b
  | some a, none => some a
  | some a, some b => some (min a b)

mutual

/-- `dfs` of `solvers/idastar.py`: prune when `f = g + h` exceeds the bound
(returning `f` as the candidate next bound), succeed on the goal (returning
the current bound), else recurse over in-bounds successors not on the current
path, tracking the minimal bound-exceeding `f` (`none` = infinity). The
visited set and path list are threaded as data (they are mutated in place in
Python); outer `none` = recursion fuel exhausted. -/
def dfsIda (tgt : Grid) (size : Nat) (fuel : Nat) (state : Grid) (pos : Nat × Nat)
    (g bound : Nat) (visited : List Grid) (path : List (Nat × Nat)) :
    Option (Bool × Option Nat × List Grid × List (Nat × Nat)) :=
  match fuel with
  | 0 => none
  | fuel2 + 1 =>
    let f := g + manhattan_ida state tgt
    if f > bound then some (false, some f, visited, path)
    else if state == tgt then some (true, some bound, visited, path)
    else dfsKids tgt size fuel2 state pos g bound dirs none visited path
termination_by (fuel, 0)

/-- The successor loop inside `dfs`: directions are tried in order; a visited
successor is skipped; on a found solution the call returns immediately with
the current bound; otherwise the child's returned bound updates `min_f` and
the child's additions to the path and visited set are undone. -/
def dfsKids (tgt : Grid) (size : Nat) (fuel : Nat) (state : Grid) (pos : Nat × Nat)
    (g bound : Nat) (ds : List (Int × Int)) (minf : Option Nat) (visited : List Grid)
    (path : List (Nat × Nat)) :
    Option (Bool × Option Nat × List Grid × List (Nat × Nat)) :=
  match ds with
  | [] => some (false, minf, visited, path)
  | d :: ds2 =>
    let nr : Int := (pos.1 : Int) + d.1
    let nc : Int := (pos.2 : Int) + d.2
    if 0 ≤ nr ∧ nr < (size : Int) ∧ 0 ≤ nc ∧ nc < (size : Int) then
      let new_state := swapBlank state pos.1 pos.2 nr.toNat nc.toNat
      if visited.contains new_state then
        dfsKids tgt size fuel state pos g bound ds2 minf visited path
      else
        match dfsIda tgt size fuel new_state (nr.toNat, nc.toNat) (g + 1) bound
          (visited ++ [new_state]) (path ++ [(nr.toNat, nc.toNat)]) with
        | none => none
        | some (true, _, vis2, path2) => some (true, some bound, vis2, path2)
        | some (false, nb, vis2, path2) =>
          dfsKids tgt size fuel state pos g bound ds2 (ominMin minf nb)
            (vis2.erase new_state) path2.dropLast
    else dfsKids tgt size fuel state pos g bound ds2 minf visited path
termination_by (fuel, ds.length + 1)

end

/-- Minimum of a list of naturals, `none` on the empty list (the `min` that
`float('inf')` seeds in the source, folded left as the dfs loop does). -/
def omin (l : List Nat) : Option Nat :=
  l.foldl (fun acc x => ominMin acc (some x)) none

mutual

/-- Modelled from the spec: the bound-exceeding `f` values "seen" during one
depth-first iteration — the same traversal as `dfsIda`, but collecting the
`f` value of every pruned node in visit order instead of min-folding them
(success still returns early, mirroring the source's control flow). The
spec's `next_bound` is claimed to be the minimum of this collection. -/
def dfsSeen (tgt : Grid) (size : Nat) (fuel : Nat) (state : Grid) (pos : Nat × Nat)
    (g bound : Nat) (visited : List Grid) (path : List (Nat × Nat)) :
    Option (Bool × List Nat × List Grid × List (Nat × Nat)) :=
  match fuel with
  | 0 => none
  | fuel2 + 1 =>
    let f := g + manhattan_ida state tgt
    if f > bound then some (false, [f], visited, path)
    else if state == tgt then some (true, [], visited, path)
    else dfsSeenKids tgt size fuel2 state pos g bound dirs [] visited path
termination_by (fuel, 0)

/-- Successor loop of `dfsSeen`: identical control flow and visited/path
threading as `dfsKids`, with the children's collected values appended in
order instead of min-folded. -/
def dfsSeenKids (tgt : Grid) (size : Nat) (fuel : Nat) (state : Grid) (pos : Nat × Nat)
    (g bound : Nat) (ds : List (Int × Int)) (seen : List Nat) (visited : List Grid)
    (path : List (Nat × Nat)) :
    Option (Bool × List Nat × List Grid × List (Nat × Nat)) :=
  match ds with
  | [] => some (false, seen, visited, path)
  | d :: ds2 =>
    let nr : Int := (pos.1 : Int) + d.1
    let nc : Int := (pos.2 : Int) + d.2
    if 0 ≤ nr ∧ nr < (size : Int) ∧ 0 ≤ nc ∧ nc < (size : Int) then
      let new_state := swapBlank state pos.1 pos.2 nr.toNat nc.toNat
      if visited.contains new_state then
        dfsSeenKids tgt size fuel state pos g bound ds2 seen visited path
      else
        match dfsSeen tgt size fuel new_state (nr.toNat, nc.toNat) (g + 1) bound
          (visited ++ [new_state]) (path ++ [(nr.toNat, nc.toNat)]) with
        | none => none
        | some (true, _, vis2, path2) => some (true, [], vis2, path2)
        | some (false, s2, vis2, path2) =>
          dfsSeenKids tgt size fuel state pos g bound ds2 (seen ++ s2)
            (vis2.erase new_state) path2.dropLast
    else dfsSeenKids tgt size fuel state pos g bound ds2 seen visited path
termination_by (fuel, ds.length + 1)

end

/-- Agreement between a `dfsIda` result and the corresponding `dfsSeen`
result: identical control flow and threaded visited/path state, and on a
failed call the returned next bound is the minimum of the collected
bound-exceeding `f` values, each of which exceeds the old bound. -/
def DfsAgrees (bound : Nat) :
    Option (Bool × Option Nat × List Grid × List (Nat × Nat)) →
    Option (Bool × List Nat × List Grid × List (Nat × Nat)) → Prop
  | none, none => True
  | some (fd1, nb, v1, p1), some (fd2, seen, v2, p2) =>
      fd1 = fd2 ∧ v1 = v2 ∧ p1 = p2 ∧
        (fd1 = false → nb = omin seen ∧ ∀ x ∈ seen, x > bound)
  | _, _ => False

/-- The `while bound < float('inf')` loop of `solvers/idastar.py
solve_puzzle`: run a depth-first iteration from the initial state with a fresh
visited set; return the path on success, `None` when the next bound is
infinite, else retry with the returned bound. The path list persists across
iterations as in the source. -/
def idaOuter (tgt : Grid) (size : Nat) (initState : Grid) (initPos : Nat × Nat)
    (dfsFuel : Nat) :
    Nat → Nat → List (Nat × Nat) → Option (Option (List (Nat × Nat)))
  | 0, _, _ => none
  | ofuel + 1, bound, path =>
    match dfsIda tgt size dfsFuel initState initPos 0 bound [initState] path with
    | none => none
    | some (true, _, _, path2) => some (some path2)
    | some (false, none, _, _) => some none
    | some (false, some nb, _, path2) =>
      idaOuter tgt size initState initPos dfsFuel ofuel nb path2

/-- `solve_puzzle` of `solvers/idastar.py` (board threaded as in
`astar_solve`); `dfsFuel` bounds the recursion depth, `ofuel` the number of
deepening iterations. -/
def idastar_solve (b : Board) (dfsFuel ofuel : Nat) :
    Board × Option (Option (List (Nat × Nat))) :=
  if ¬ b.is_solvable then (b, some none)
  else
    let size := b.size
    let tgt := target size
    let bound := manhattan_ida b.state tgt
    (b, idaOuter tgt size b.state b.empty_pos dfsFuel ofuel bound [])

-- ===================== DEFINITIONS CONTINUE ABOVE =====================

-- ========================== THEOREMS ==========================

section ListInfra

lemma getD_map_range {α : Type} (f : Nat → α) (d : α) {n i : Nat} (h : i < n) :
    ((List.range n).map f).getD i d = f i := by
  rw [List.getD_eq_getElem?_getD, List.getElem?_map, List.getElem?_range h]
  rfl

lemma map_getD_self {α : Type} (l : List α) (d : α) :
    (List.range l.length).map (fun i => l.getD i d) = l := by
  induction l with
  | nil => rfl
  | cons x xs ih =>
    have hfun : ((fun i => (x :: xs).getD i d) ∘ Nat.succ) = fun i => xs.getD i d := by
      funext i
      simp [List.getD_cons_succ]
    simp only [List.length_cons, List.range_succ_eq_map, List.map_cons, List.map_map,
      List.getD_cons_zero, hfun, ih]

lemma flatten_map_slices (l : List Nat) (n : Nat) :
    ∀ (m : Nat), ((List.range m).map (fun i => (l.drop (i * n)).take n)).flatten
      = l.take (m * n) := by
  intro m
  induction m with
  | zero => simp
  | succ m ih =>
    rw [List.range_succ, List.map_append, List.flatten_append, ih]
    simp only [List.map_cons, List.map_nil, List.flatten_cons, List.flatten_nil,
      List.append_nil]
    rw [← List.take_add]
    congr 1
    ring

lemma inversions_sorted : ∀ {l : List Nat}, l.Pairwise (fun a b => a ≤ b) → inversions l = 0 := by
  intro l h
  induction l with
  | nil => rfl
  | cons x xs ih =>
    rw [List.pairwise_cons] at h
    rw [inversions, ih h.2]
    have hc : xs.countP (fun y => decide (y < x)) = 0 :=
      List.countP_eq_zero.mpr (fun a ha => by simpa using Nat.not_lt.mpr (h.1 a ha))
    omega

lemma filterMap_range_getD : ∀ (l : List Nat),
    (List.range l.length).filterMap (fun j =>
      if l.getD j 0 = 0 then none else some (l.getD j 0)) = l.filter (fun v => !(v == 0)) := by
  intro l
  induction l with
  | nil => rfl
  | cons x xs ih =>
    have hfun : ((fun j => if (x :: xs).getD j 0 = 0 then none else some ((x :: xs).getD j 0))
        ∘ Nat.succ) = fun j => if xs.getD j 0 = 0 then none else some (xs.getD j 0) := by
      funext j
      simp [List.getD_cons_succ]
    simp only [List.length_cons, List.range_succ_eq_map, List.filterMap_cons,
      List.filterMap_map, hfun, ih, List.getD_cons_zero]
    by_cases hx : x = 0
    · subst hx
      simp [List.filter_cons]
    · simp [List.filter_cons, hx]

lemma flatten_length_of_rows {n : Nat} : ∀ (g : Grid), (∀ r ∈ g, r.length = n) →
    g.flatten.length = g.length * n := by
  intro g
  induction g with
  | nil => simp
  | cons r g' ih =>
    intro hr
    simp only [List.flatten_cons, List.length_append, List.length_cons]
    rw [ih (fun r hm => hr r (by simp [hm])), hr r (by simp)]
    ring

lemma gget_flatten {n : Nat} : ∀ (g : Grid) (i j : Nat), (∀ r ∈ g, r.length = n) →
    i < g.length → j < n → gget g i j = g.flatten.getD (i * n + j) 0 := by
  intro g
  induction g with
  | nil =>
    intro i j _ hi _
    simp at hi
  | cons r g' ih =>
    intro i j hr hi hj
    match i with
    | 0 =>
      simp only [gget, List.getD_cons_zero, List.flatten_cons, Nat.zero_mul, Nat.zero_add]
      rw [List.getD_append _ _ _ j (by rw [hr r (by simp)]; exact hj)]
    | i + 1 =>
      have hrec := ih i j (fun s hm => hr s (by simp [hm])) (by simpa using hi) hj
      rw [gget] at hrec ⊢
      simp only [List.getD_cons_succ, List.flatten_cons]
      rw [hrec, List.getD_append_right _ _ _ _ (by rw [hr r (by simp)]; nlinarith)]
      congr 1
      rw [hr r (by simp)]
      ring_nf
      omega

lemma foldl_nested {α : Type} (f : α → Nat → Nat → α) (a : α) (n : Nat) :
    (List.range n).foldl (fun acc i => (List.range n).foldl (fun a2 j => f a2 i j) acc) a
      = (cells n).foldl (fun acc p => f acc p.1 p.2) a := by
  unfold cells
  rw [List.flatMap_def, List.foldl_flatten, List.foldl_map]
  congr 1
  funext acc i
  rw [List.foldl_map]

lemma cells_mem {n : Nat} {p : Nat × Nat} : p ∈ cells n ↔ p.1 < n ∧ p.2 < n := by
  cases p with
  | mk i j =>
    simp [cells, List.mem_flatMap, List.mem_map, List.mem_range]

lemma cells_nodup (n : Nat) : (cells n).Nodup := by
  unfold cells
  rw [List.nodup_flatMap]
  constructor
  · intro i _
    exact (List.nodup_range n).map (fun a b h => by simpa using h)
  · apply List.Pairwise.imp ?_ (List.pairwise_lt_range n)
    intro a b hab
    intro x hx hy
    simp only [List.mem_map] at hx hy
    obtain ⟨j1, _, rfl⟩ := hx
    obtain ⟨j2, _, h2⟩ := hy
    have hba : b = a := by simpa using congrArg Prod.fst h2
    omega

lemma foldl_write_none {β : Type} (p : Nat × Nat → Prop) [DecidablePred p] (v : Nat × Nat → β) :
    ∀ (l : List (Nat × Nat)) (a : Option β), (∀ q ∈ l, ¬ p q) →
      l.foldl (fun acc q => if p q then some (v q) else acc) a = a := by
  intro l
  induction l with
  | nil =>
    intro a _
    rfl
  | cons x xs ih =>
    intro a hnp
    rw [List.foldl_cons, if_neg (hnp x (by simp))]
    exact ih a (fun q hq => hnp q (by simp [hq]))

lemma foldl_write_unique {β : Type} (p : Nat × Nat → Prop) [DecidablePred p] (v : Nat × Nat → β)
    (l : List (Nat × Nat)) (q0 : Nat × Nat) (a : Option β)
    (hmem : q0 ∈ l) (hnd : l.Nodup) (hp : p q0) (hq : ∀ q ∈ l, p q → q = q0) :
    l.foldl (fun acc q => if p q then some (v q) else acc) a = some (v q0) := by
  obtain ⟨s, t, rfl⟩ := List.append_of_mem hmem
  rw [List.foldl_append, List.foldl_cons, if_pos hp]
  apply foldl_write_none
  intro q hqt hpq
  have hq0 : q = q0 := hq q (by simp [hqt]) hpq
  have hnotin : q0 ∉ t := by
    have hsub := hnd.sublist (List.sublist_append_right s (q0 :: t))
    exact (List.nodup_cons.mp hsub).1
  exact hnotin (hq0 ▸ hqt)

lemma findIdx_unique {α : Type} (p : α → Bool) :
    ∀ (l : List α) (r0 : Nat) (h : r0 < l.length), p (l[r0]) = true →
      (∀ i (h' : i < l.length), p (l[i]) = true → i = r0) → l.findIdx p = r0 := by
  intro l
  induction l with
  | nil =>
    intro r0 h
    simp at h
  | cons x xs ih =>
    intro r0 h hp huniq
    match r0 with
    | 0 =>
      simp only [List.getElem_cons_zero] at hp
      rw [List.findIdx_cons, hp]
      rfl
    | r0 + 1 =>
      have hx : p x = false := by
        cases hpx : p x with
        | false => rfl
        | true =>
          have : (0 : Nat) = r0 + 1 := huniq 0 (by simp) (by simpa using hpx)
          omega
      rw [List.findIdx_cons, hx]
      simp only [cond_false]
      congr 1
      apply ih r0 (by simpa using h) (by simpa using hp)
      intro i h' hpi
      have := huniq (i + 1) (by simpa using h') (by simpa using hpi)
      omega

lemma index_lt {n i j : Nat} (hi : i < n) (hj : j < n) : i * n + j < n * n := by
  have h1 : (i + 1) * n ≤ n * n := Nat.mul_le_mul_right n hi
  have h2 : (i + 1) * n = i * n + n := by ring
  omega

end ListInfra

section TargetLemmas

lemma targetFlat_length {n : Nat} (hn : 1 ≤ n) : (targetFlat n).length = n * n := by
  have hpos : 1 ≤ n * n := Nat.one_le_iff_ne_zero.mpr (Nat.mul_ne_zero (by omega) (by omega))
  simp [targetFlat]
  omega

lemma target_length (n : Nat) : (target n).length = n := by
  simp [target]

lemma target_rows {n : Nat} (hn : 1 ≤ n) : ∀ r ∈ target n, r.length = n := by
  intro r hr
  simp only [target, List.mem_map, List.mem_range] at hr
  obtain ⟨i, hi, rfl⟩ := hr
  simp only [List.length_take, List.length_drop, targetFlat_length hn]
  have h1 : (i + 1) * n ≤ n * n := Nat.mul_le_mul_right n hi
  have h2 : (i + 1) * n = i * n + n := by ring
  omega

lemma target_flatten {n : Nat} (hn : 1 ≤ n) : (target n).flatten = targetFlat n := by
  rw [target, flatten_map_slices]
  exact List.take_of_length_le (by rw [targetFlat_length hn])

lemma targetFlat_getD {n k : Nat} (hn : 1 ≤ n) (hk : k < n * n) :
    (targetFlat n).getD k 0 = if k = n * n - 1 then 0 else k + 1 := by
  unfold targetFlat
  by_cases hlt : k < n * n - 1
  · rw [List.getD_append _ _ _ k (by simpa using hlt), getD_map_range _ _ hlt]
    rw [if_neg (by omega)]
  · have hke : k = n * n - 1 := by omega
    rw [List.getD_append_right _ _ _ _ (by simp; omega)]
    simp only [List.length_map, List.length_range]
    rw [if_pos hke, hke]
    simp

lemma gget_target {n i j : Nat} (hn : 1 ≤ n) (hi : i < n) (hj : j < n) :
    gget (target n) i j = if i * n + j = n * n - 1 then 0 else i * n + j + 1 := by
  rw [gget_flatten (target n) i j (target_rows hn) (by rw [target_length]; exact hi) hj,
    target_flatten hn, targetFlat_getD hn (index_lt hi hj)]

lemma target_perm {n : Nat} (hn : 1 ≤ n) :
    List.Perm (target n).flatten (List.range (n * n)) := by
  rw [target_flatten hn]
  unfold targetFlat
  have hsq : n * n = (n * n - 1) + 1 := by
    have : 1 ≤ n * n := Nat.one_le_iff_ne_zero.mpr (Nat.mul_ne_zero (by omega) (by omega))
    omega
  rw [hsq, List.range_succ_eq_map]
  refine List.Perm.trans (List.perm_append_singleton 0 _) ?_
  apply List.Perm.cons
  apply List.Perm.of_eq
  apply List.map_congr_left
  intro a _
  omega

lemma target_valid {n : Nat} (hn : 1 ≤ n) : validGrid n (target n) :=
  ⟨target_length n, target_rows hn, target_perm hn⟩

end TargetLemmas

section ValidGridLemmas

lemma unique_zero_cell {n : Nat} {g : Grid} (hn : 1 ≤ n) (hv : validGrid n g) :
    ∃ r0 c0, r0 < n ∧ c0 < n ∧ gget g r0 c0 = 0 ∧
      ∀ i j, i < n → j < n → gget g i j = 0 → i = r0 ∧ j = c0 := by
  obtain ⟨hlen, hrows, hperm⟩ := hv
  have hflen : g.flatten.length = n * n := by
    rw [flatten_length_of_rows g hrows, hlen]
  have hnodup : g.flatten.Nodup := (hperm.nodup_iff).mpr (List.nodup_range _)
  have hsq : 0 < n * n := Nat.mul_pos (by omega) (by omega)
  have hmem : (0 : Nat) ∈ g.flatten := hperm.mem_iff.mpr (List.mem_range.mpr hsq)
  obtain ⟨k, hk, hk0⟩ := List.getElem_of_mem hmem
  have hkn : k < n * n := by rw [← hflen]; exact hk
  refine ⟨k / n, k % n, ?_, ?_, ?_, ?_⟩
  · exact Nat.div_lt_of_lt_mul (by rwa [Nat.mul_comm] at hkn)
  · exact Nat.mod_lt _ (by omega)
  · have hidx : (k / n) * n + k % n = k := by
      rw [Nat.mul_comm]
      exact Nat.div_add_mod k n
    rw [gget_flatten g _ _ hrows
      (by rw [hlen]; exact Nat.div_lt_of_lt_mul (by rwa [Nat.mul_comm] at hkn))
      (Nat.mod_lt _ (by omega)), hidx, List.getD_eq_getElem _ _ hk]
    exact hk0
  · intro i j hi hj hz
    rw [gget_flatten g i j hrows (by rw [hlen]; exact hi) hj] at hz
    have hlt : i * n + j < g.flatten.length := by rw [hflen]; exact index_lt hi hj
    rw [List.getD_eq_getElem _ _ hlt] at hz
    have heq : i * n + j = k := by
      apply (hnodup.getElem_inj_iff).mp
      rw [hz, hk0]
    constructor
    · have : (i * n + j) / n = i := by
        rw [Nat.mul_comm i n, Nat.mul_add_div (by omega), Nat.div_eq_of_lt hj]
        omega
      rw [← heq, this]
    · have : (i * n + j) % n = j := by
        rw [Nat.mul_comm i n, Nat.mul_add_mod, Nat.mod_eq_of_lt hj]
      rw [← heq, this]

lemma nonzeroScan_eq {g : Grid} {n : Nat} (h1 : g.length = n)
    (h2 : ∀ r ∈ g, r.length = n) :
    nonzeroScan g n = g.flatten.filter (fun v => !(v == 0)) := by
  unfold nonzeroScan
  rw [List.flatMap_def]
  have hstep : ∀ i ∈ List.range n,
      (List.range n).filterMap (fun j =>
        let v := gget g i j
        if v = 0 then none else some v)
      = (g.getD i []).filter (fun v => !(v == 0)) := by
    intro i hi
    rw [List.mem_range] at hi
    have hrow : (g.getD i []).length = n := by
      rw [List.getD_eq_getElem _ _ (by omega : i < g.length)]
      exact h2 _ (List.getElem_mem _)
    show (List.range n).filterMap (fun j =>
      if (g.getD i []).getD j 0 = 0 then none else some ((g.getD i []).getD j 0)) = _
    rw [← hrow]
    exact filterMap_range_getD _
  rw [List.map_congr_left hstep]
  have hmaps : (List.range n).map (fun i => (g.getD i []).filter (fun v => !(v == 0)))
      = g.map (List.filter (fun v => !(v == 0))) := by
    have hself : (List.range n).map (fun i => g.getD i []) = g := by
      rw [← h1]
      exact map_getD_self g []
    calc (List.range n).map (fun i => (g.getD i []).filter (fun v => !(v == 0)))
        = ((List.range n).map (fun i => g.getD i [])).map
            (List.filter (fun v => !(v == 0))) := by rw [List.map_map]; rfl
      _ = g.map (List.filter (fun v => !(v == 0))) := by rw [hself]
  rw [hmaps, ← List.filter_flatten]

lemma inversions_nonzeroScan_target {n : Nat} (hn : 1 ≤ n) :
    inversions (nonzeroScan (target n) n) = 0 := by
  rw [nonzeroScan_eq (target_length n) (target_rows hn), target_flatten hn]
  unfold targetFlat
  rw [List.filter_append]
  have h1 : (List.filter (fun v => !(v == 0)) [0]) = [] := by decide
  have h2 : ((List.range (n * n - 1)).map (· + 1)).filter (fun v => !(v == 0))
      = (List.range (n * n - 1)).map (· + 1) := by
    apply List.filter_eq_self.mpr
    intro a ha
    simp only [List.mem_map] at ha
    obtain ⟨b, _, rfl⟩ := ha
    simp
  rw [h1, h2, List.append_nil]
  apply inversions_sorted
  rw [List.pairwise_map]
  apply List.Pairwise.imp ?_ (List.pairwise_lt_range _)
  intro a b hab
  omega

lemma scanBlankRow_eq_row {n : Nat} {g : Grid} (r0 c0 : Nat) (hr : r0 < n) (hc : c0 < n)
    (hz : gget g r0 c0 = 0)
    (huniq : ∀ i j, i < n → j < n → gget g i j = 0 → i = r0 ∧ j = c0) :
    scanBlankRow g n = some r0 := by
  unfold scanBlankRow
  rw [foldl_nested (fun acc i j => if gget g i j = 0 then some i else acc)]
  exact foldl_write_unique (fun q => gget g q.1 q.2 = 0) (fun q => q.1) (cells n) (r0, c0)
    none (cells_mem.mpr ⟨hr, hc⟩) (cells_nodup n) hz
    (fun q hq hpq => by
      obtain ⟨h1, h2⟩ := huniq q.1 q.2 (cells_mem.mp hq).1 (cells_mem.mp hq).2 hpq
      exact Prod.ext h1 h2)

lemma findIdx_blank_row {n : Nat} {g : Grid} (hlen : g.length = n)
    (hrows : ∀ r ∈ g, r.length = n) (r0 c0 : Nat) (hr : r0 < n) (hc : c0 < n)
    (hz : gget g r0 c0 = 0)
    (huniq : ∀ i j, i < n → j < n → gget g i j = 0 → i = r0 ∧ j = c0) :
    g.findIdx (fun row => row.contains 0) = r0 := by
  apply findIdx_unique (fun row => row.contains 0) g r0 (by omega)
  · apply List.elem_iff.mpr
    have hrl : g[r0].length = n := hrows _ (List.getElem_mem _)
    rw [List.mem_iff_getElem]
    refine ⟨c0, by omega, ?_⟩
    have := hz
    rw [gget, List.getD_eq_getElem _ _ (by omega : r0 < g.length),
      List.getD_eq_getElem _ _ (by omega : c0 < g[r0].length)] at this
    exact this
  · intro i h' hpi
    have hmem : (0 : Nat) ∈ g[i] := List.elem_iff.mp hpi
    rw [List.mem_iff_getElem] at hmem
    obtain ⟨j, hj, hj0⟩ := hmem
    have hrl : g[i].length = n := hrows _ (List.getElem_mem _)
    have hzij : gget g i j = 0 := by
      rw [gget, List.getD_eq_getElem _ _ h', List.getD_eq_getElem _ _ hj]
      exact hj0
    exact (huniq i j (by omega) (by omega) hzij).1

end ValidGridLemmas

section GridSetLemmas

lemma row_len {g : Grid} {n : Nat} (hrows : ∀ r ∈ g, r.length = n) {i : Nat}
    (hi : i < g.length) : (g.getD i []).length = n := by
  rw [List.getD_eq_getElem _ _ hi]
  exact hrows _ (List.getElem_mem _)

lemma gset_length (g : Grid) (i j v : Nat) : (gset g i j v).length = g.length :=
  List.length_set g i _

lemma gset_rows_length {g : Grid} {n : Nat} (hrows : ∀ r ∈ g, r.length = n)
    {i : Nat} (j v : Nat) (hi : i < g.length) :
    ∀ r ∈ gset g i j v, r.length = n := by
  intro r hr
  unfold gset at hr
  rcases List.mem_or_eq_of_mem_set hr with h | h
  · exact hrows r h
  · subst h
    rw [List.length_set]
    exact row_len hrows hi

lemma gget_gset {g : Grid} {i j : Nat} (v : Nat) (i' j' : Nat) (hi : i < g.length)
    (hj : j < (g.getD i []).length) :
    gget (gset g i j v) i' j' = if i' = i ∧ j' = j then v else gget g i' j' := by
  unfold gget gset
  rw [List.getD_eq_getElem?_getD (g.set i ((g.getD i []).set j v)) i' [], List.getElem?_set]
  by_cases hii : i = i'
  · rw [if_pos hii, if_pos hi]
    simp only [Option.getD_some]
    subst hii
    by_cases hjj : j' = j
    · subst hjj
      rw [if_pos ⟨rfl, rfl⟩, List.getD_eq_getElem?_getD _ j' 0, List.getElem?_set_eq hj]
      rfl
    · rw [if_neg (by tauto), List.getD_eq_getElem?_getD ((g.getD i []).set j v) j' 0,
        List.getElem?_set_ne (by omega), ← List.getD_eq_getElem?_getD]
  · rw [if_neg hii, if_neg (by tauto), ← List.getD_eq_getElem?_getD]

end GridSetLemmas

section C3

/-- C3, counterexample: on the 2×2 goal board `[[1,2],[3,0]]` the code's
`is_solvable` returns `true`, while the claim's formula for even `n`
(`(inversions + blank_row_from_bottom) % 2 == 0` with the bottom row counted
as 1) evaluates to `false`: the claimed equivalence fails at this input. -/
theorem C3_counterexample :
    ¬ ((Board.init 2).is_solvable = true ↔ specSolvableC3 2 (Board.init 2).state) := by
  decide

/-- C3, amended: for every valid board of size `n`, `is_solvable` returns true
iff: when `n` is odd, the number of inversions in the flattened tile sequence
with the blank excluded is even; when `n` is even,
`(inversions + blank_row_from_bottom) % 2 == 1` (not 0 as claimed), where
`blank_row_from_bottom` counts rows starting at 1 from the bottom edge. -/
theorem C3_amended (n : Nat) (b : Board) (hn : 1 ≤ n) (hv : validGrid n b.state) :
    b.is_solvable = true ↔
      (if n % 2 = 1 then specInversions b.state % 2 = 0
       else (specInversions b.state + blankRowFromBottom n b.state) % 2 = 1) := by
  obtain ⟨hlen, hrows, hperm⟩ := hv
  have hvv : validGrid n b.state := ⟨hlen, hrows, hperm⟩
  simp only [Board.is_solvable, hlen]
  rw [nonzeroScan_eq hlen hrows, inversions_nonzeroScan_target hn]
  unfold specInversions
  by_cases hodd : n % 2 = 1
  · rw [if_pos hodd, if_pos hodd]
    simp [beq_iff_eq]
  · rw [if_neg hodd, if_neg hodd]
    obtain ⟨r0, c0, hr, hc, hz, huniq⟩ := unique_zero_cell hn hvv
    obtain ⟨rt, ct, hrt, hct, hzt, huniqT⟩ := unique_zero_cell hn (target_valid hn)
    have hnn : n ≤ n * n := Nat.le_mul_of_pos_left n (by omega)
    have hidx : (n - 1) * n + (n - 1) = n * n - 1 := by
      have hsm : (n - 1) * n = n * n - n := by
        rw [Nat.sub_one_mul]
      omega
    have hTzero : gget (target n) (n - 1) (n - 1) = 0 := by
      rw [gget_target hn (by omega) (by omega), if_pos hidx]
    have hrt1 : rt = n - 1 :=
      ((huniqT (n - 1) (n - 1) (by omega) (by omega) hTzero).1).symm
    have hscanC : scanBlankRow b.state n = some r0 :=
      scanBlankRow_eq_row r0 c0 hr hc hz huniq
    have hscanT : scanBlankRow (target n) n = some rt :=
      scanBlankRow_eq_row rt ct hrt hct hzt huniqT
    have hfind : b.state.findIdx (fun row => row.contains 0) = r0 :=
      findIdx_blank_row hlen hrows r0 c0 hr hc hz huniq
    rw [hscanC, hscanT]
    unfold blankRowFromBottom
    rw [hfind, hrt1]
    simp only [beq_iff_eq]
    have hev : n % 2 = 0 := by omega
    omega

/-- Witness for `C3_amended` at the 2×2 goal board. -/
theorem C3_amended_witness :
    (Board.init 2).is_solvable = true ↔
      (if 2 % 2 = 1 then specInversions (Board.init 2).state % 2 = 0
       else (specInversions (Board.init 2).state
          + blankRowFromBottom 2 (Board.init 2).state) % 2 = 1) :=
  C3_amended 2 (Board.init 2) (by decide) (by decide)

end C3

section C10

lemma is_valid_move_iff (b : Board) (row col : Int) :
    b.is_valid_move row col = true ↔
      (0 ≤ row ∧ row < (b.size : Int) ∧ 0 ≤ col ∧ col < (b.size : Int) ∧
        (row - (b.empty_pos.1 : Int)).natAbs + (col - (b.empty_pos.2 : Int)).natAbs = 1) := by
  unfold Board.is_valid_move
  by_cases hb : (0 ≤ row ∧ row < (b.size : Int) ∧ 0 ≤ col ∧ col < (b.size : Int))
  · rw [if_neg (by tauto)]
    simp only [beq_iff_eq]
    tauto
  · rw [if_pos (by tauto)]
    simp only [Bool.false_eq_true, false_iff]
    tauto

/-- C10: `Board.move(row, col)` returns True iff `(row, col)` is in bounds and
at Manhattan distance exactly 1 from the blank; on True the addressed cell and
the blank swap contents, all other cells are unchanged, the blank position
becomes `(row, col)` and the move counter increments; on False the state grid,
blank position and move counter are unchanged. -/
theorem C10_move_spec (b : Board) (row col : Int)
    (hlen : b.state.length = b.size)
    (hrows : ∀ r ∈ b.state, r.length = b.size)
    (hep : b.empty_pos.1 < b.size ∧ b.empty_pos.2 < b.size) :
    ((b.move row col).2 = true ↔
      (0 ≤ row ∧ row < (b.size : Int) ∧ 0 ≤ col ∧ col < (b.size : Int) ∧
        (row - (b.empty_pos.1 : Int)).natAbs + (col - (b.empty_pos.2 : Int)).natAbs = 1)) ∧
    ((b.move row col).2 = true →
      gget (b.move row col).1.state b.empty_pos.1 b.empty_pos.2
          = gget b.state row.toNat col.toNat ∧
      gget (b.move row col).1.state row.toNat col.toNat
          = gget b.state b.empty_pos.1 b.empty_pos.2 ∧
      (∀ i j, ¬ (i = row.toNat ∧ j = col.toNat) →
        ¬ (i = b.empty_pos.1 ∧ j = b.empty_pos.2) →
        gget (b.move row col).1.state i j = gget b.state i j) ∧
      (b.move row col).1.empty_pos = (row.toNat, col.toNat) ∧
      (b.move row col).1.moves = b.moves + 1) ∧
    ((b.move row col).2 = false →
      (b.move row col).1.state = b.state ∧
      (b.move row col).1.empty_pos = b.empty_pos ∧
      (b.move row col).1.moves = b.moves) := by
  by_cases hvm : b.is_valid_move row col = true
  · have hcond := (is_valid_move_iff b row col).mp hvm
    obtain ⟨hr0, hrs, hc0, hcs, hdist⟩ := hcond
    have hmv : b.move row col =
        (let r := row.toNat
         let c := col.toNat
         let er := b.empty_pos.1
         let ec := b.empty_pos.2
         let temp := gget b.state er ec
         let st1 := gset b.state er ec (gget b.state r c)
         let st2 := gset st1 r c temp
         let b2 : Board :=
           { b with
             state := st2
             empty_pos := (r, c)
             moves := b.moves + 1
             history := b.history ++ [(st2, (r, c), b.moves + 1)] }
         (b2, true)) := by
      unfold Board.move
      rw [if_neg (by simp [hvm])]
    set r := row.toNat with hrdef
    set c := col.toNat with hcdef
    set er := b.empty_pos.1 with herdef
    set ec := b.empty_pos.2 with hecdef
    have hrn : r < b.size := by
      rw [hrdef]
      exact (Int.toNat_lt hr0).mpr hrs
    have hcn : c < b.size := by
      rw [hcdef]
      exact (Int.toNat_lt hc0).mpr hcs
    have hern : er < b.size := hep.1
    have hecn : ec < b.size := hep.2
    have hne : ¬ (r = er ∧ c = ec) := by
      rintro ⟨h1, h2⟩
      have hre : row = (er : Int) := by
        rw [← Int.toNat_of_nonneg hr0]
        exact congrArg (Nat.cast : Nat → Int) h1
      have hce : col = (ec : Int) := by
        rw [← Int.toNat_of_nonneg hc0]
        exact congrArg (Nat.cast : Nat → Int) h2
      rw [hre, hce] at hdist
      simp at hdist
    have hst1len : (gset b.state er ec (gget b.state r c)).length = b.size := by
      rw [gset_length, hlen]
    have hst1rows : ∀ s ∈ gset b.state er ec (gget b.state r c), s.length = b.size :=
      gset_rows_length hrows ec (gget b.state r c) (by omega)
    have hrowlen : (b.state.getD er []).length = b.size := row_len hrows (by omega)
    have hst1row : ((gset b.state er ec (gget b.state r c)).getD r []).length = b.size :=
      row_len hst1rows (by omega)
    refine ⟨?_, ?_, ?_⟩
    · rw [hmv]
      simp only [is_valid_move_iff b row col] at hvm
      simpa using hvm
    · intro _
      rw [hmv]
      simp only []
      refine ⟨?_, ?_, ?_, by trivial, by trivial⟩
      · rw [gget_gset _ er ec (by omega) (by omega), if_neg (by tauto),
          gget_gset _ er ec (by omega) (by omega), if_pos ⟨rfl, rfl⟩]
      · rw [gget_gset _ r c (by omega) (by omega), if_pos ⟨rfl, rfl⟩]
      · intro i j hij1 hij2
        rw [gget_gset _ i j (by omega) (by omega), if_neg (by tauto),
          gget_gset _ i j (by omega) (by omega), if_neg (by tauto)]
    · intro hfalse
      rw [hmv] at hfalse
      simp at hfalse
  · have hmv : b.move row col = (b, false) := by
      unfold Board.move
      rw [if_pos (by simp [hvm])]
    rw [hmv]
    refine ⟨?_, ?_, ?_⟩
    · simp only [Bool.false_eq_true, false_iff]
      intro hc
      exact hvm ((is_valid_move_iff b row col).mpr hc)
    · intro h
      simp at h
    · intro _
      exact ⟨rfl, rfl, rfl⟩

/-- Witness for `C10_move_spec`: the 3×3 goal board with the move `(2, 1)`
(valid: adjacent to the blank at `(2, 2)`). -/
theorem C10_move_spec_witness :
    ((Board.init 3).move 2 1).2 = true ∧
    gget ((Board.init 3).move 2 1).1.state 2 2 = 8 := by
  have h := C10_move_spec (Board.init 3) 2 1 (by decide) (by decide) (by decide)
  refine ⟨?_, ?_⟩
  · exact h.1.mpr (by decide)
  · have h2 := (h.2.1 (h.1.mpr (by decide))).1
    simpa using h2

end C10

section C7

lemma foldl_append_filter_map {α β : Type} (p : α → Prop) [DecidablePred p] (f : α → β) :
    ∀ (l : List α) (acc : List β),
      l.foldl (fun acc d => if p d then acc ++ [f d] else acc) acc
        = acc ++ (l.filter (fun d => decide (p d))).map f := by
  intro l
  induction l with
  | nil =>
    intro acc
    simp
  | cons x xs ih =>
    intro acc
    rw [List.foldl_cons, List.filter_cons]
    by_cases hx : p x
    · rw [if_pos hx, ih]
      simp [hx]
    · rw [if_neg hx, ih]
      simp [hx]

/-- C7: each neighbor generator emits, in the fixed deterministic order
right, down, left, up, exactly one successor per in-bounds cardinal
direction — each obtained by swapping the blank with the orthogonally
adjacent tile in that direction — with no visited filtering and no
reordering; in particular at most 4 entries. Stated for the
`solvers/astar.py` generator and the shared `models/algorithms` generator. -/
theorem C7_neighbors (size : Nat) :
    (∀ s : PState,
      get_neighbors s size =
        (dirs.filter (fun d =>
          decide (0 ≤ (s.empty_pos.1 : Int) + d.1 ∧ (s.empty_pos.1 : Int) + d.1 < (size : Int) ∧
            0 ≤ (s.empty_pos.2 : Int) + d.2 ∧
            (s.empty_pos.2 : Int) + d.2 < (size : Int)))).map
          (fun d =>
            PState.child
              (swapBlank s.board s.empty_pos.1 s.empty_pos.2
                ((s.empty_pos.1 : Int) + d.1).toNat ((s.empty_pos.2 : Int) + d.2).toNat)
              (((s.empty_pos.1 : Int) + d.1).toNat, ((s.empty_pos.2 : Int) + d.2).toNat)
              (s.gval + 1) 0
              (((s.empty_pos.1 : Int) + d.1).toNat, ((s.empty_pos.2 : Int) + d.2).toNat) s) ∧
      (get_neighbors s size).length ≤ 4) ∧
    (∀ g : Grid,
      get_neighbors_m g size =
        (argwhereZero g).map (fun ep =>
          (dirs.filter (fun d =>
            decide (0 ≤ (ep.1 : Int) + d.1 ∧ (ep.1 : Int) + d.1 < (size : Int) ∧
              0 ≤ (ep.2 : Int) + d.2 ∧ (ep.2 : Int) + d.2 < (size : Int)))).map
            (fun d =>
              (swapBlank g ep.1 ep.2 ((ep.1 : Int) + d.1).toNat ((ep.2 : Int) + d.2).toNat,
                (((ep.1 : Int) + d.1).toNat, ((ep.2 : Int) + d.2).toNat))))) := by
  constructor
  · intro s
    constructor
    · unfold get_neighbors
      rw [foldl_append_filter_map
        (fun d : Int × Int =>
          0 ≤ (s.empty_pos.1 : Int) + d.1 ∧ (s.empty_pos.1 : Int) + d.1 < (size : Int) ∧
            0 ≤ (s.empty_pos.2 : Int) + d.2 ∧ (s.empty_pos.2 : Int) + d.2 < (size : Int))
        _ dirs []]
      simp
    · unfold get_neighbors
      rw [foldl_append_filter_map
        (fun d : Int × Int =>
          0 ≤ (s.empty_pos.1 : Int) + d.1 ∧ (s.empty_pos.1 : Int) + d.1 < (size : Int) ∧
            0 ≤ (s.empty_pos.2 : Int) + d.2 ∧ (s.empty_pos.2 : Int) + d.2 < (size : Int))
        _ dirs []]
      simp only [List.nil_append, List.length_map]
      calc (dirs.filter _).length ≤ dirs.length := List.length_filter_le _ _
        _ = 4 := rfl
  · intro g
    unfold get_neighbors_m
    cases hz : argwhereZero g with
    | none => rfl
    | some ep =>
      simp only [Option.map_some', Option.some.injEq]
      rw [foldl_append_filter_map
        (fun d : Int × Int =>
          0 ≤ (ep.1 : Int) + d.1 ∧ (ep.1 : Int) + d.1 < (size : Int) ∧
            0 ≤ (ep.2 : Int) + d.2 ∧ (ep.2 : Int) + d.2 < (size : Int))
        _ dirs []]
      simp

end C7

section FoldHelpers

lemma foldl_ext {α β : Type} (f g : α → β → α) :
    ∀ (l : List β) (a : α), (∀ acc, ∀ q ∈ l, f acc q = g acc q) →
      l.foldl f a = l.foldl g a := by
  intro l
  induction l with
  | nil =>
    intro a _
    rfl
  | cons x xs ih =>
    intro a hfg
    rw [List.foldl_cons, List.foldl_cons, hfg a x (by simp)]
    exact ih _ (fun acc q hq => hfg acc q (by simp [hq]))

lemma foldl_nat_add {β : Type} (c : β → Nat) :
    ∀ (l : List β) (s0 : Nat), l.foldl (fun acc q => acc + c q) s0 = s0 + (l.map c).sum := by
  intro l
  induction l with
  | nil =>
    intro s0
    simp
  | cons x xs ih =>
    intro s0
    rw [List.foldl_cons, ih, List.map_cons, List.sum_cons]
    omega

lemma foldl_option_add {β : Type} (c : β → Nat) :
    ∀ (l : List β) (s0 : Nat),
      l.foldl (fun acc q => acc.map (fun s => s + c q)) (some s0)
        = some (s0 + (l.map c).sum) := by
  intro l
  induction l with
  | nil =>
    intro s0
    simp
  | cons x xs ih =>
    intro s0
    rw [List.foldl_cons]
    simp only [Option.map_some']
    rw [ih, List.map_cons, List.sum_cons]
    congr 1
    omega

lemma find?_unique {α : Type} (p : α → Bool) :
    ∀ (l : List α) (a : α), a ∈ l → p a = true → (∀ b ∈ l, p b = true → b = a) →
      l.find? p = some a := by
  intro l
  induction l with
  | nil =>
    intro a ha
    simp at ha
  | cons x xs ih =>
    intro a ha hpa huniq
    by_cases hx : p x = true
    · rw [List.find?_cons_of_pos _ hx]
      rw [huniq x (by simp) hx]
    · rw [List.find?_cons_of_neg _ hx]
      have hax : a ≠ x := fun hc => hx (hc ▸ hpa)
      have hmem : a ∈ xs := by
        rcases List.mem_cons.mp ha with h | h
        · exact absurd h hax
        · exact h
      exact ih a hmem hpa (fun b hb hpb => huniq b (by simp [hb]) hpb)

lemma foldl_match_none {F : Nat → Option Nat} {G : Nat → Nat → Nat} :
    ∀ (l : List Nat) (acc : Nat), (∀ t ∈ l, F t = none) →
      l.foldl (fun acc ti => match F ti with
        | some tj => acc + G ti tj
        | none => acc) acc = acc := by
  intro l
  induction l with
  | nil =>
    intro acc _
    rfl
  | cons x xs ih =>
    intro acc hF
    rw [List.foldl_cons]
    have hx : F x = none := hF x (by simp)
    rw [hx]
    exact ih acc (fun t ht => hF t (by simp [ht]))

lemma foldl_match_unique {F : Nat → Option Nat} {G : Nat → Nat → Nat} :
    ∀ (n t0 c0 : Nat), t0 < n → F t0 = some c0 → (∀ t, t < n → t ≠ t0 → F t = none) →
      ∀ (acc : Nat), (List.range n).foldl (fun acc ti => match F ti with
        | some tj => acc + G ti tj
        | none => acc) acc = acc + G t0 c0 := by
  intro n
  induction n with
  | zero =>
    intro t0 c0 ht
    omega
  | succ n ih =>
    intro t0 c0 ht hF hother acc
    rw [List.range_succ, List.foldl_append]
    by_cases h0 : t0 = n
    · subst h0
      rw [foldl_match_none _ acc (fun t htm => hother t (by
          rw [List.mem_range] at htm
          omega) (by
          rw [List.mem_range] at htm
          omega))]
      simp only [List.foldl_cons, List.foldl_nil, hF]
    · have ht0 : t0 < n := by omega
      rw [ih t0 c0 ht0 hF (fun t htn htne => hother t (by omega) htne) acc]
      have hn : F n = none := hother n (by omega) (fun hc => h0 hc.symm)
      simp only [List.foldl_cons, List.foldl_nil, hn]

lemma foldl_update_out {P : Nat × Nat → Prop} [DecidablePred P] {key : Nat × Nat → Nat}
    {val : Nat × Nat → Nat × Nat} {k0 : Nat} :
    ∀ (l : List (Nat × Nat)) (d : Nat → Option (Nat × Nat)),
      (∀ q ∈ l, ¬ (P q ∧ key q = k0)) →
      (l.foldl (fun d q => if P q then
          (fun k => if k = key q then some (val q) else d k) else d) d) k0 = d k0 := by
  intro l
  induction l with
  | nil =>
    intro d _
    rfl
  | cons x xs ih =>
    intro d hout
    rw [List.foldl_cons]
    rw [ih _ (fun q hq => hout q (by simp [hq]))]
    by_cases hP : P x
    · rw [if_pos hP, if_neg (fun hc => hout x (by simp) ⟨hP, hc.symm⟩)]
    · rw [if_neg hP]

lemma foldl_update_unique {P : Nat × Nat → Prop} [DecidablePred P] {key : Nat × Nat → Nat}
    {val : Nat × Nat → Nat × Nat} {k0 : Nat} {q0 : Nat × Nat} :
    ∀ (l : List (Nat × Nat)) (d : Nat → Option (Nat × Nat)),
      q0 ∈ l → (∀ q ∈ l, (P q ∧ key q = k0) ↔ q = q0) →
      (l.foldl (fun d q => if P q then
          (fun k => if k = key q then some (val q) else d k) else d) d) k0
        = some (val q0) := by
  intro l
  induction l with
  | nil =>
    intro d hm
    simp at hm
  | cons x xs ih =>
    intro d hm hiff
    by_cases hq : q0 ∈ xs
    · rw [List.foldl_cons]
      exact ih _ hq (fun q hqm => hiff q (by simp [hqm]))
    · have hx : x = q0 := by
        rcases List.mem_cons.mp hm with h | h
        · exact h.symm
        · exact absurd h hq
      subst hx
      rw [List.foldl_cons]
      have hPx : P x ∧ key x = k0 := (hiff x (by simp)).mpr rfl
      rw [foldl_update_out xs _ (fun q hqm hc => by
        have : q = x := (hiff q (by simp [hqm])).mp hc
        exact hq (this ▸ hqm))]
      rw [if_pos hPx.1, if_pos hPx.2.symm]

end FoldHelpers

section C9

lemma goalPos_lt {n v : Nat} (hn : 1 ≤ n) (h2 : v < n * n) :
    (goalPos n v).1 < n ∧ (goalPos n v).2 < n := by
  unfold goalPos
  constructor
  · exact Nat.div_lt_of_lt_mul (by
      have : v - 1 < n * n := by omega
      rwa [Nat.mul_comm] at this)
  · exact Nat.mod_lt _ (by omega)

lemma goalPos_index {n v : Nat} (hn : 1 ≤ n) :
    (goalPos n v).1 * n + (goalPos n v).2 = v - 1 := by
  unfold goalPos
  rw [Nat.mul_comm]
  exact Nat.div_add_mod (v - 1) n

lemma gget_target_eq_iff {n v : Nat} (hn : 1 ≤ n) (h1 : 1 ≤ v) (h2 : v < n * n)
    {i j : Nat} (hi : i < n) (hj : j < n) :
    gget (target n) i j = v ↔ (i, j) = goalPos n v := by
  rw [gget_target hn hi hj]
  constructor
  · intro h
    by_cases hlast : i * n + j = n * n - 1
    · rw [if_pos hlast] at h
      omega
    · rw [if_neg hlast] at h
      have hidx : i * n + j = v - 1 := by omega
      have hdiv : (i * n + j) / n = i := by
        rw [Nat.mul_comm i n, Nat.mul_add_div (by omega), Nat.div_eq_of_lt hj]
        omega
      have hmod : (i * n + j) % n = j := by
        rw [Nat.mul_comm i n, Nat.mul_add_mod, Nat.mod_eq_of_lt hj]
      unfold goalPos
      rw [← hidx, hdiv, hmod]
  · intro h
    have hieq : i = (v - 1) / n := congrArg Prod.fst h
    have hjeq : j = (v - 1) % n := congrArg Prod.snd h
    have hidx : i * n + j = v - 1 := by
      rw [hieq, hjeq, Nat.mul_comm]
      exact Nat.div_add_mod (v - 1) n
    rw [if_neg (by omega), hidx]
    omega

lemma value_lt {n : Nat} {g : Grid} (hv : validGrid n g) {i j : Nat}
    (hi : i < n) (hj : j < n) : gget g i j < n * n := by
  obtain ⟨hlen, hrows, hperm⟩ := hv
  have hflen : g.flatten.length = n * n := by
    rw [flatten_length_of_rows g hrows, hlen]
  rw [gget_flatten g i j hrows (by omega) hj]
  have hlt : i * n + j < g.flatten.length := by
    rw [hflen]
    exact index_lt hi hj
  rw [List.getD_eq_getElem _ _ hlt]
  have hmem : g.flatten[i * n + j] ∈ g.flatten := List.getElem_mem _
  have := hperm.mem_iff.mp hmem
  rwa [List.mem_range] at this

lemma tposDict_target {n v : Nat} (hn : 1 ≤ n) (h1 : 1 ≤ v) (h2 : v < n * n) :
    tposDict (target n) n v = some (goalPos n v) := by
  unfold tposDict
  rw [foldl_nested (fun d2 i j =>
    if gget (target n) i j ≠ 0 then
      (fun k => if k = gget (target n) i j then some (i, j) else d2 k) else d2)]
  have hq0 := goalPos_lt hn h2
  have := @foldl_update_unique (fun q : Nat × Nat => gget (target n) q.1 q.2 ≠ 0) _
    (fun q => gget (target n) q.1 q.2) (fun q => (q.1, q.2))
    v (goalPos n v) (cells n) (fun _ => none)
    (cells_mem.mpr ⟨hq0.1, hq0.2⟩) ?_
  · rw [this]
  · intro q hqm
    obtain ⟨hq1, hq2⟩ := cells_mem.mp hqm
    constructor
    · rintro ⟨hnz, hkey⟩
      have := (gget_target_eq_iff hn h1 h2 hq1 hq2).mp hkey
      calc q = (q.1, q.2) := rfl
        _ = goalPos n v := this
    · intro hq
      subst hq
      have hval : gget (target n) (goalPos n v).1 (goalPos n v).2 = v :=
        (gget_target_eq_iff hn h1 h2 hq0.1 hq0.2).mpr rfl
      exact ⟨by omega, hval⟩

/-- C9: on every valid board, the lookup-table Manhattan distance of
`solvers/astar.py` (which can only fail by `KeyError` on invalid values)
and the nested-scan Manhattan distance of `solvers/idastar.py` agree, and
both equal the sum over all non-blank tiles of the L1 distance between the
tile's current position and its goal position. -/
theorem C9_manhattan (n : Nat) (g : Grid) (hn : 1 ≤ n) (hv : validGrid n g) :
    manhattan_astar g (target n) = some (specManhattan n g) ∧
    manhattan_ida g (target n) = specManhattan n g := by
  obtain ⟨hlen, hrows, hperm⟩ := hv
  have hvv : validGrid n g := ⟨hlen, hrows, hperm⟩
  have hvalue : ∀ q : Nat × Nat, q ∈ cells n → gget g q.1 q.2 ≠ 0 →
      1 ≤ gget g q.1 q.2 ∧ gget g q.1 q.2 < n * n := by
    intro q hqm hnz
    obtain ⟨hq1, hq2⟩ := cells_mem.mp hqm
    exact ⟨by omega, value_lt hvv hq1 hq2⟩
  constructor
  · unfold manhattan_astar
    simp only [hlen]
    rw [foldl_nested]
    rw [foldl_ext _ (fun acc q => acc.map (fun s => s +
        (if gget g q.1 q.2 = 0 then 0
         else adist q.1 (goalPos n (gget g q.1 q.2)).1
           + adist q.2 (goalPos n (gget g q.1 q.2)).2))) (cells n) (some 0) ?_]
    · rw [foldl_option_add]
      unfold specManhattan
      simp
    · intro acc q hq
      simp only []
      by_cases hz : gget g q.1 q.2 = 0
      · cases acc with
        | none => simp [hz]
        | some s => simp [hz]
      · obtain ⟨h1, h2⟩ := hvalue q hq hz
        rw [tposDict_target hn h1 h2]
        cases acc with
        | none => simp [hz]
        | some s => simp [hz]
  · unfold manhattan_ida
    simp only [hlen]
    rw [foldl_nested]
    rw [foldl_ext _ (fun acc q => acc +
        (if gget g q.1 q.2 = 0 then 0
         else adist q.1 (goalPos n (gget g q.1 q.2)).1
           + adist q.2 (goalPos n (gget g q.1 q.2)).2)) (cells n) 0 ?_]
    · rw [foldl_nat_add]
      unfold specManhattan
      simp
    · intro acc q hq
      simp only []
      by_cases hz : gget g q.1 q.2 = 0
      · simp [hz]
      · obtain ⟨h1, h2⟩ := hvalue q hq hz
        have hgp := goalPos_lt hn h2
        rw [if_pos hz, if_neg hz]
        apply foldl_match_unique n (goalPos n (gget g q.1 q.2)).1
          (goalPos n (gget g q.1 q.2)).2 hgp.1 ?_ ?_
        · apply find?_unique _ _ _ (List.mem_range.mpr hgp.2)
          · rw [beq_iff_eq]
            exact (gget_target_eq_iff hn h1 h2 hgp.1 hgp.2).mpr rfl
          · intro b hb hpb
            rw [List.mem_range] at hb
            rw [beq_iff_eq] at hpb
            have := (gget_target_eq_iff hn h1 h2 hgp.1 hb).mp hpb
            exact (congrArg Prod.snd this).symm ▸ rfl
        · intro t ht htne
          rw [List.find?_eq_none]
          intro tj htj
          rw [List.mem_range] at htj
          simp only [beq_iff_eq]
          intro hc
          have := (gget_target_eq_iff hn h1 h2 ht htj).mp hc
          exact htne (congrArg Prod.fst this)

/-- Witness for `C9_manhattan`: the one-move-from-goal 3×3 board. -/
theorem C9_manhattan_witness :
    manhattan_astar [[1, 2, 3], [4, 5, 6], [7, 0, 8]] (target 3)
        = some (specManhattan 3 [[1, 2, 3], [4, 5, 6], [7, 0, 8]]) ∧
    manhattan_ida [[1, 2, 3], [4, 5, 6], [7, 0, 8]] (target 3)
        = specManhattan 3 [[1, 2, 3], [4, 5, 6], [7, 0, 8]] :=
  C9_manhattan 3 [[1, 2, 3], [4, 5, 6], [7, 0, 8]] (by decide) (by decide)

end C9

section Engines

lemma is_solvable_of_goal {n : Nat} (hn : 1 ≤ n) (b : Board) (hst : b.state = target n) :
    b.is_solvable = true := by
  simp only [Board.is_solvable, hst, target_length n]
  by_cases hodd : n % 2 = 1
  · rw [if_pos hodd]
    simp
  · rw [if_neg hodd]
    obtain ⟨rt, ct, hrt, hct, hzt, huniqT⟩ := unique_zero_cell hn (target_valid hn)
    rw [scanBlankRow_eq_row rt ct hrt hct hzt huniqT]
    simp

/-- C4: when `is_solvable` rejects a board, each of the three `solve_puzzle`
engines returns the distinct no-solution value `None` (`some none` here, not
an empty move list), before the search loop can run: the result holds for
every fuel value, including zero fuel, under which no node expansion is
possible. -/
theorem C4_unsolvable_none (b : Board) (h : b.is_solvable = false) :
    (∀ fuel, astar_solve b fuel = (b, some none)) ∧
    (∀ fuel, bfs_solve b fuel = (b, some none)) ∧
    (∀ dfuel ofuel, idastar_solve b dfuel ofuel = (b, some none)) := by
  refine ⟨fun fuel => ?_, fun fuel => ?_, fun dfuel ofuel => ?_⟩
  · unfold astar_solve
    rw [if_pos (by simp [h])]
  · unfold bfs_solve
    rw [if_pos (by simp [h])]
  · unfold idastar_solve
    rw [if_pos (by simp [h])]

/-- Witness for `C4_unsolvable_none`: the unsolvable 3×3 board
`[[1,2,3],[4,5,6],[8,7,0]]` at fuel 0. -/
theorem C4_unsolvable_none_witness :
    (Board.ofState 3 [[1, 2, 3], [4, 5, 6], [8, 7, 0]] (2, 2)).is_solvable = false ∧
    astar_solve (Board.ofState 3 [[1, 2, 3], [4, 5, 6], [8, 7, 0]] (2, 2)) 0
      = (Board.ofState 3 [[1, 2, 3], [4, 5, 6], [8, 7, 0]] (2, 2), some none) ∧
    bfs_solve (Board.ofState 3 [[1, 2, 3], [4, 5, 6], [8, 7, 0]] (2, 2)) 0
      = (Board.ofState 3 [[1, 2, 3], [4, 5, 6], [8, 7, 0]] (2, 2), some none) ∧
    idastar_solve (Board.ofState 3 [[1, 2, 3], [4, 5, 6], [8, 7, 0]] (2, 2)) 0 0
      = (Board.ofState 3 [[1, 2, 3], [4, 5, 6], [8, 7, 0]] (2, 2), some none) :=
  ⟨by decide,
    (C4_unsolvable_none _ (by decide)).1 0,
    (C4_unsolvable_none _ (by decide)).2.1 0,
    (C4_unsolvable_none _ (by decide)).2.2 0 0⟩

/-- C5: on a board already equal to the canonical goal, each of the three
engines returns the empty Solution `some (some [])` (an empty move list, not
the no-solution value): A* via its pre-loop goal check at any fuel, BFS on
the first dequeue, IDA* in the first depth-first call of the first
iteration. -/
theorem C5_goal_empty (n : Nat) (b : Board) (hn : 1 ≤ n) (hsize : b.size = n)
    (hst : b.state = target n) :
    (∀ fuel, astar_solve b fuel = (b, some (some []))) ∧
    (∀ fuel, bfs_solve b (fuel + 1) = (b, some (some []))) ∧
    (∀ dfuel ofuel, idastar_solve b (dfuel + 1) (ofuel + 1) = (b, some (some []))) := by
  have hsolv : b.is_solvable = true := is_solvable_of_goal hn b hst
  obtain ⟨hma, _⟩ := C9_manhattan n (target n) hn (target_valid hn)
  refine ⟨fun fuel => ?_, fun fuel => ?_, fun dfuel ofuel => ?_⟩
  · unfold astar_solve
    rw [if_neg (by simp [hsolv])]
    simp only [hsize, hst, hma, beq_self_eq_true, if_pos]
  · unfold bfs_solve
    rw [if_neg (by simp [hsolv])]
    simp only [hsize, hst]
    rw [bfsLoop]
    simp only [beq_self_eq_true, if_pos]
    rw [bfsBacktrack]
    simp [List.find?_cons_of_pos]
  · unfold idastar_solve
    rw [if_neg (by simp [hsolv])]
    simp only [hsize, hst]
    rw [idaOuter, dfsIda]
    rw [if_neg (by omega)]
    simp [beq_self_eq_true]

/-- Witness for `C5_goal_empty`: the 3×3 goal board. -/
theorem C5_goal_empty_witness :
    (∀ fuel, astar_solve (Board.init 3) fuel = (Board.init 3, some (some []))) ∧
    (∀ fuel, bfs_solve (Board.init 3) (fuel + 1) = (Board.init 3, some (some []))) ∧
    (∀ dfuel ofuel,
      idastar_solve (Board.init 3) (dfuel + 1) (ofuel + 1)
        = (Board.init 3, some (some []))) :=
  C5_goal_empty 3 (Board.init 3) (by decide) rfl rfl

/-- C8: no engine mutates the caller's board: each embedded `solve_puzzle`
threads the input `Board` object through every attribute read (and the
`is_solvable` call, whose body only works on a copy of the state) and returns
it untouched on every control path. -/
theorem C8_no_mutation :
    (∀ b fuel, (astar_solve b fuel).1 = b) ∧
    (∀ b fuel, (bfs_solve b fuel).1 = b) ∧
    (∀ b dfuel ofuel, (idastar_solve b dfuel ofuel).1 = b) := by
  refine ⟨fun b fuel => ?_, fun b fuel => ?_, fun b dfuel ofuel => ?_⟩
  · unfold astar_solve
    split
    · rfl
    · dsimp only
      split
      · rfl
      · split <;> rfl
  · unfold bfs_solve
    split <;> rfl
  · unfold idastar_solve
    split <;> rfl

end Engines

section C6

lemma ominMin_none_right (a : Option Nat) : ominMin a none = a := by
  cases a <;> rfl

lemma ominMin_assoc (a b c : Option Nat) :
    ominMin (ominMin a b) c = ominMin a (ominMin b c) := by
  cases a <;> cases b <;> cases c <;> simp [ominMin, Nat.min_assoc]

lemma foldl_omin_acc : ∀ (l : List Nat) (a : Option Nat),
    l.foldl (fun acc x => ominMin acc (some x)) a = ominMin a (omin l) := by
  intro l
  induction l with
  | nil =>
    intro a
    rw [List.foldl_nil, omin, List.foldl_nil, ominMin_none_right]
  | cons x xs ih =>
    intro a
    have hx : (omin (x :: xs) : Option Nat) = ominMin (some x) (omin xs) := by
      show List.foldl (fun acc y => ominMin acc (some y)) (ominMin none (some x)) xs
        = ominMin (some x) (omin xs)
      rw [ih]
      rfl
    rw [List.foldl_cons, ih, hx, ominMin_assoc]

lemma omin_append (l₁ l₂ : List Nat) :
    omin (l₁ ++ l₂) = ominMin (omin l₁) (omin l₂) := by
  rw [omin, List.foldl_append, ← omin, foldl_omin_acc]

lemma dfsKids_agrees (tgt : Grid) (size fuel : Nat)
    (IH : ∀ state pos g bound visited path,
      DfsAgrees bound (dfsIda tgt size fuel state pos g bound visited path)
        (dfsSeen tgt size fuel state pos g bound visited path)) :
    ∀ (ds : List (Int × Int)) (state : Grid) (pos : Nat × Nat) (g bound : Nat)
      (seenAcc : List Nat) (visited : List Grid) (path : List (Nat × Nat)),
      (∀ x ∈ seenAcc, x > bound) →
      DfsAgrees bound
        (dfsKids tgt size fuel state pos g bound ds (omin seenAcc) visited path)
        (dfsSeenKids tgt size fuel state pos g bound ds seenAcc visited path) := by
  intro ds
  induction ds with
  | nil =>
    intro state pos g bound seenAcc visited path hgt
    rw [dfsKids, dfsSeenKids]
    exact ⟨rfl, rfl, rfl, fun _ => ⟨rfl, hgt⟩⟩
  | cons d ds2 ih =>
    intro state pos g bound seenAcc visited path hgt
    rw [dfsKids, dfsSeenKids]
    dsimp only
    by_cases hb : 0 ≤ (pos.1 : Int) + d.1 ∧ (pos.1 : Int) + d.1 < (size : Int) ∧
        0 ≤ (pos.2 : Int) + d.2 ∧ (pos.2 : Int) + d.2 < (size : Int)
    · rw [if_pos hb, if_pos hb]
      set ns := swapBlank state pos.1 pos.2 ((pos.1 : Int) + d.1).toNat
        ((pos.2 : Int) + d.2).toNat with hns
      by_cases hvis : visited.contains ns = true
      · rw [if_pos hvis, if_pos hvis]
        exact ih state pos g bound seenAcc visited path hgt
      · rw [if_neg hvis, if_neg hvis]
        have hrel := IH ns (((pos.1 : Int) + d.1).toNat, ((pos.2 : Int) + d.2).toNat)
          (g + 1) bound (visited ++ [ns])
          (path ++ [(((pos.1 : Int) + d.1).toNat, ((pos.2 : Int) + d.2).toNat)])
        cases hda : dfsIda tgt size fuel ns
            (((pos.1 : Int) + d.1).toNat, ((pos.2 : Int) + d.2).toNat) (g + 1) bound
            (visited ++ [ns])
            (path ++ [(((pos.1 : Int) + d.1).toNat, ((pos.2 : Int) + d.2).toNat)]) with
        | none =>
          cases hds : dfsSeen tgt size fuel ns
              (((pos.1 : Int) + d.1).toNat, ((pos.2 : Int) + d.2).toNat) (g + 1) bound
              (visited ++ [ns])
              (path ++ [(((pos.1 : Int) + d.1).toNat, ((pos.2 : Int) + d.2).toNat)]) with
          | none =>
            show DfsAgrees bound none none
            trivial
          | some s =>
            rw [hda, hds] at hrel
            obtain ⟨s1, s2, s3, s4⟩ := s
            exact hrel.elim
        | some r =>
          cases hds : dfsSeen tgt size fuel ns
              (((pos.1 : Int) + d.1).toNat, ((pos.2 : Int) + d.2).toNat) (g + 1) bound
              (visited ++ [ns])
              (path ++ [(((pos.1 : Int) + d.1).toNat, ((pos.2 : Int) + d.2).toNat)]) with
          | none =>
            rw [hda, hds] at hrel
            obtain ⟨r1, r2, r3, r4⟩ := r
            exact hrel.elim
          | some s =>
            rw [hda, hds] at hrel
            obtain ⟨fd, nb, v2, p2⟩ := r
            obtain ⟨fd2, s2, v2s, p2s⟩ := s
            obtain ⟨hfd, hv, hp, hmin⟩ := hrel
            cases fd with
            | true =>
              rw [← hfd]
              exact ⟨rfl, hv, hp, fun hc => nomatch hc⟩
            | false =>
              rw [← hfd]
              obtain ⟨hnb, hs2⟩ := hmin rfl
              rw [hv, hp]
              show DfsAgrees bound
                (dfsKids tgt size fuel state pos g bound ds2 (ominMin (omin seenAcc) nb)
                  (v2s.erase ns) p2s.dropLast)
                (dfsSeenKids tgt size fuel state pos g bound ds2 (seenAcc ++ s2)
                  (v2s.erase ns) p2s.dropLast)
              have hacc : ominMin (omin seenAcc) nb = omin (seenAcc ++ s2) := by
                rw [hnb, ← omin_append]
              rw [hacc]
              exact ih state pos g bound (seenAcc ++ s2) (v2s.erase ns) p2s.dropLast
                (fun x hx => by
                  rcases List.mem_append.mp hx with h | h
                  · exact hgt x h
                  · exact hs2 x h)
    · rw [if_neg hb, if_neg hb]
      exact ih state pos g bound seenAcc visited path hgt

lemma dfsIda_agrees (tgt : Grid) (size : Nat) :
    ∀ (fuel : Nat) (state : Grid) (pos : Nat × Nat) (g bound : Nat)
      (visited : List Grid) (path : List (Nat × Nat)),
      DfsAgrees bound (dfsIda tgt size fuel state pos g bound visited path)
        (dfsSeen tgt size fuel state pos g bound visited path) := by
  intro fuel
  induction fuel with
  | zero =>
    intro state pos g bound visited path
    rw [dfsIda, dfsSeen]
    trivial
  | succ fuel ih =>
    intro state pos g bound visited path
    rw [dfsIda, dfsSeen]
    by_cases hf : g + manhattan_ida state tgt > bound
    · rw [if_pos hf, if_pos hf]
      refine ⟨rfl, rfl, rfl, fun _ => ⟨rfl, ?_⟩⟩
      intro x hx
      rw [List.mem_singleton] at hx
      omega
    · rw [if_neg hf, if_neg hf]
      by_cases hgoal : (state == tgt) = true
      · rw [if_pos hgoal, if_pos hgoal]
        exact ⟨rfl, rfl, rfl, fun hc => nomatch hc⟩
      · rw [if_neg hgoal, if_neg hgoal]
        exact dfsKids_agrees tgt size fuel ih dirs state pos g bound [] visited path
          (by simp)

/-- C6: the IDA* engine starts with bound = the Manhattan heuristic of the
initial board; a node pruned at entry reports its `f = g + h` value as the
candidate next bound; every failed depth-first call returns exactly the
MINIMUM (`omin`) of the bound-exceeding `f` values seen in its traversal
(collected in visit order by `dfsSeen`), each of which exceeds the old bound;
a failed iteration with finite minimum `nb` retries with bound = `nb`; and
when that minimum stays infinite (`none`) the engine reports no solution. -/
theorem C6_idastar_bounds (b : Board) (dfuel ofuel : Nat)
    (hs : b.is_solvable = true) :
    idastar_solve b dfuel ofuel =
      (b, idaOuter (target b.size) b.size b.state b.empty_pos dfuel ofuel
        (manhattan_ida b.state (target b.size)) []) ∧
    (∀ st pos g bound vis path df,
      g + manhattan_ida st (target b.size) > bound →
      dfsIda (target b.size) b.size (df + 1) st pos g bound vis path
        = some (false, some (g + manhattan_ida st (target b.size)), vis, path)) ∧
    (∀ df st pos g bound vis path nb vis2 path2,
      dfsIda (target b.size) b.size df st pos g bound vis path
          = some (false, nb, vis2, path2) →
      ∃ seen, dfsSeen (target b.size) b.size df st pos g bound vis path
          = some (false, seen, vis2, path2)
        ∧ nb = omin seen ∧ ∀ x ∈ seen, x > bound) ∧
    (∀ bound path vis2 path2 nb ofl,
      dfsIda (target b.size) b.size dfuel b.state b.empty_pos 0 bound [b.state] path
          = some (false, some nb, vis2, path2) →
      idaOuter (target b.size) b.size b.state b.empty_pos dfuel (ofl + 1) bound path
        = idaOuter (target b.size) b.size b.state b.empty_pos dfuel ofl nb path2) ∧
    (∀ bound path vis2 path2 ofl,
      dfsIda (target b.size) b.size dfuel b.state b.empty_pos 0 bound [b.state] path
          = some (false, none, vis2, path2) →
      idaOuter (target b.size) b.size b.state b.empty_pos dfuel (ofl + 1) bound path
        = some none) := by
  refine ⟨?_, ?_, ?_, ?_, ?_⟩
  · unfold idastar_solve
    rw [if_neg (by simp [hs])]
  · intro st pos g bound vis path df hgt
    rw [dfsIda, if_pos hgt]
  · intro df st pos g bound vis path nb vis2 path2 hdfs
    have hrel := dfsIda_agrees (target b.size) b.size df st pos g bound vis path
    rw [hdfs] at hrel
    cases hseen : dfsSeen (target b.size) b.size df st pos g bound vis path with
    | none =>
      rw [hseen] at hrel
      exact hrel.elim
    | some s =>
      rw [hseen] at hrel
      obtain ⟨fd2, seen, v2, p2⟩ := s
      obtain ⟨hfd, hv, hp, hmin⟩ := hrel
      obtain ⟨hnb, hgt⟩ := hmin rfl
      subst hv
      subst hp
      exact ⟨seen, by rw [← hfd], hnb, hgt⟩
  · intro bound path vis2 path2 nb ofl hdfs
    rw [idaOuter, hdfs]
  · intro bound path vis2 path2 ofl hdfs
    rw [idaOuter, hdfs]

/-- Witness for `C6_idastar_bounds` at the solvable one-move board
`[[1,2,3],[4,5,6],[7,0,8]]` with `dfuel = 1`: its first depth-first call at
bound 0 actually fails with next bound 1 (the final two conjuncts exhibit the
retry hypothesis satisfied, not vacuous). -/
theorem C6_idastar_bounds_witness :
    (idastar_solve (Board.ofState 3 [[1, 2, 3], [4, 5, 6], [7, 0, 8]] (2, 1)) 1 1 =
      (Board.ofState 3 [[1, 2, 3], [4, 5, 6], [7, 0, 8]] (2, 1),
        idaOuter (target 3) 3 [[1, 2, 3], [4, 5, 6], [7, 0, 8]] (2, 1) 1 1
          (manhattan_ida [[1, 2, 3], [4, 5, 6], [7, 0, 8]] (target 3)) [])) ∧
    (∀ st pos g bound vis path df,
      g + manhattan_ida st (target 3) > bound →
      dfsIda (target 3) 3 (df + 1) st pos g bound vis path
        = some (false, some (g + manhattan_ida st (target 3)), vis, path)) ∧
    (∀ df st pos g bound vis path nb vis2 path2,
      dfsIda (target 3) 3 df st pos g bound vis path
          = some (false, nb, vis2, path2) →
      ∃ seen, dfsSeen (target 3) 3 df st pos g bound vis path
          = some (false, seen, vis2, path2)
        ∧ nb = omin seen ∧ ∀ x ∈ seen, x > bound) ∧
    (∀ bound path vis2 path2 nb ofl,
      dfsIda (target 3) 3 1 [[1, 2, 3], [4, 5, 6], [7, 0, 8]] (2, 1) 0 bound
          [[[1, 2, 3], [4, 5, 6], [7, 0, 8]]] path
          = some (false, some nb, vis2, path2) →
      idaOuter (target 3) 3 [[1, 2, 3], [4, 5, 6], [7, 0, 8]] (2, 1) 1 (ofl + 1) bound path
        = idaOuter (target 3) 3 [[1, 2, 3], [4, 5, 6], [7, 0, 8]] (2, 1) 1 ofl nb path2) ∧
    (∀ bound path vis2 path2 ofl,
      dfsIda (target 3) 3 1 [[1, 2, 3], [4, 5, 6], [7, 0, 8]] (2, 1) 0 bound
          [[[1, 2, 3], [4, 5, 6], [7, 0, 8]]] path
          = some (false, none, vis2, path2) →
      idaOuter (target 3) 3 [[1, 2, 3], [4, 5, 6], [7, 0, 8]] (2, 1) 1 (ofl + 1) bound path
        = some none) ∧
    dfsIda (target 3) 3 1 [[1, 2, 3], [4, 5, 6], [7, 0, 8]] (2, 1) 0 0
        [[[1, 2, 3], [4, 5, 6], [7, 0, 8]]] []
      = some (false, some 1, [[[1, 2, 3], [4, 5, 6], [7, 0, 8]]], []) ∧
    idaOuter (target 3) 3 [[1, 2, 3], [4, 5, 6], [7, 0, 8]] (2, 1) 1 (0 + 1) 0 []
      = idaOuter (target 3) 3 [[1, 2, 3], [4, 5, 6], [7, 0, 8]] (2, 1) 1 0 1 [] := by
  have h := C6_idastar_bounds (Board.ofState 3 [[1, 2, 3], [4, 5, 6], [7, 0, 8]] (2, 1))
    1 1 (by decide)
  have hm : (0 : Nat) + manhattan_ida [[1, 2, 3], [4, 5, 6], [7, 0, 8]] (target 3) = 1 := by
    decide
  have hfail : dfsIda (target 3) 3 1 [[1, 2, 3], [4, 5, 6], [7, 0, 8]] (2, 1) 0 0
      [[[1, 2, 3], [4, 5, 6], [7, 0, 8]]] []
      = some (false, some 1, [[[1, 2, 3], [4, 5, 6], [7, 0, 8]]], []) := by
    have h2 := h.2.1 [[1, 2, 3], [4, 5, 6], [7, 0, 8]] (2, 1) 0 0
      [[[1, 2, 3], [4, 5, 6], [7, 0, 8]]] [] 0 (by decide)
    have h2' : dfsIda (target 3) 3 (0 + 1) [[1, 2, 3], [4, 5, 6], [7, 0, 8]] (2, 1) 0 0
        [[[1, 2, 3], [4, 5, 6], [7, 0, 8]]] []
        = some (false,
            some (0 + manhattan_ida [[1, 2, 3], [4, 5, 6], [7, 0, 8]] (target 3)),
            [[[1, 2, 3], [4, 5, 6], [7, 0, 8]]], []) := h2
    rw [hm] at h2'
    exact h2'
  exact ⟨h.1, h.2.1, h.2.2.1, h.2.2.2.1, h.2.2.2.2, hfail,
    h.2.2.2.1 0 [] [[[1, 2, 3], [4, 5, 6], [7, 0, 8]]] [] 1 0 hfail⟩

end C6

end NPuzzle
